import Mathlib

/-!
Verification development for the cargo-contemplate scaffolding CLI
(src/src/main.rs). The Rust source is shallowly embedded: filesystem
paths are modelled as lists of components relative to the root
(so the path /tmp/x is the list ["tmp", "x"]), directory trees as an
inductive tree with association-list children, machine integers as Nat,
and fallible operations (Rust panics and Result errors) as Option and
Except values.
-/

set_option autoImplicit false

namespace Contemplate

/-- Error enum of main.rs (lines 36-44). -/
inductive Error where
  | NoSuchClass
  | CannotParseUrl
  | FileSystemFault
  | FileSystemRename
  | FileSystemRemoveDir
  | GitFault
  deriving DecidableEq, Repr

/-- Args struct of main.rs (lines 46-50); the Rust field name is
`class`, a Lean keyword, rendered here as `cls`. -/
structure Args where
  cls : String
  dest : String
  deriving DecidableEq

/-- Context struct of main.rs (lines 52-60). Paths are component lists. -/
structure Context where
  url : String
  tmp_path : List String
  path : String
  branch : String
  package : String
  current_dir : List String
  deriving DecidableEq

/-- The static URLS table of main.rs (lines 31-34): identifier to
(repository url, branch, subdirectory). -/
def URLS : List (String × String × String × String) :=
  [("phat-contract-with-sideprog",
    ("https://github.com/tenheadedlion/phat-contract-starter.git", "master",
     "log_server-a00c26e4ff2173713db9afca5a82aee3")),
   ("phat-contract",
    ("https://github.com/tenheadedlion/phat-contract-starter.git", "plain-phat-contract",
     "erc20-497c0f607b393edb86f8da1bf053fb06"))]

/-- Exact-match lookup in the URLS table (`URLS.get` in main.rs line 65). -/
def urlsGet (k : String) : Option (String × String × String) :=
  List.lookup k URLS

/-- The character set of the rand Alphanumeric distribution. -/
def alphanumChars : List Char :=
  "ABCDEFGHIJKLMNOPQRSTUVWXYZabcdefghijklmnopqrstuvwxyz0123456789".toList

/-- One draw from the Alphanumeric distribution, with the randomness
source supplying an arbitrary natural number. -/
def sampleAlphanumeric (r : Nat) : Char :=
  alphanumChars.getD (r % 62) 'A'

/-- random_path of main.rs (lines 22-29): join /tmp with a token of 7
characters sampled from the Alphanumeric distribution. The randomness
source is passed in as a function from draw index to raw draw. The
function only builds a path; it performs no filesystem operation. -/
def random_path (rng : Nat → Nat) : List String :=
  ["tmp", String.mk ((List.range 7).map fun i => sampleAlphanumeric (rng i))]

/-- Context::try_from of main.rs (lines 62-77): look the class up in
URLS; on a hit build the Context (propagating a current_dir failure as
FileSystemFault, line 72), otherwise fail with NoSuchClass (line 74).
The staging path (`random_path()` in the source) and the result of
env::current_dir() are passed in by the caller. -/
def tryFrom (a : Args) (tmpPath : List String)
    (currentDir : Except Error (List String)) : Except Error Context :=
  match urlsGet a.cls with
  | some u =>
    match currentDir with
    | .ok cd =>
      .ok { url := u.1, branch := u.2.1, package := u.2.2,
            tmp_path := tmpPath, path := a.dest, current_dir := cd }
    | .error _ => .error Error.FileSystemFault
  | none => .error Error.NoSuchClass

/-! ## Filesystem model for the materializer

A directory tree is a file or a directory with an association list of
named children. The working directory and the staged clone are each
modelled by their entry lists. -/

/-- A filesystem node: a file, or a directory with named children. -/
inductive FsTree where
  | file : FsTree
  | dir : List (String × FsTree) → FsTree

/-- Look a name up in a directory entry list. -/
def lookupE : List (String × FsTree) → String → Option FsTree
  | [], _ => none
  | (k, t) :: rest, n => if k = n then some t else lookupE rest n

/-- Remove every entry of a given name from a directory entry list. -/
def removeE : List (String × FsTree) → String → List (String × FsTree)
  | [], _ => []
  | (k, t) :: rest, n => if k = n then removeE rest n else (k, t) :: removeE rest n

/-- Whether a node is a directory. -/
def FsTree.isDir : FsTree → Bool
  | .dir _ => true
  | .file => false

/-- Whether a node is an empty directory. -/
def FsTree.isEmptyDir : FsTree → Bool
  | .dir [] => true
  | _ => false

/-- Replace the tree stored under a name in a directory entry list
(the name is assumed present). -/
def replaceE : List (String × FsTree) → String → FsTree → List (String × FsTree)
  | [], _, _ => []
  | (k, t) :: rest, n, t2 =>
    if k = n then (n, t2) :: rest else (k, t) :: replaceE rest n t2

/-- The recursive merge of fs_extra::dir::copy with default
CopyOptions (overwrite and skip_exist both false): source directory
entries are merged into the existing target entries. A directory that
already exists at the target is merged into (not an error); a source
file whose target name already exists faults (fs_extra reports a
per-file AlreadyExists error, and copying a file onto a directory
fails likewise); a source directory whose target name is a file faults
(the directory cannot be created); a source entry with a fresh name is
copied verbatim. Returns the merged entries so far together with the
error, if any, so that a fault keeps the partial copy (the real
traversal creates all directories before copying any file, so the
exact partial tree at a fault can differ, but which runs fault, and
the resulting tree of a successful run, agree). -/
def mergeInto : List (String × FsTree) → List (String × FsTree) →
    List (String × FsTree) × Option Error
  | [], acc => (acc, none)
  | (k, FsTree.file) :: rest, acc =>
    match lookupE acc k with
    | some _ => (acc, some Error.FileSystemFault)
    | none => mergeInto rest (acc ++ [(k, FsTree.file)])
  | (k, FsTree.dir ts) :: rest, acc =>
    match lookupE acc k with
    | some FsTree.file => (acc, some Error.FileSystemFault)
    | some (FsTree.dir us) =>
      match mergeInto ts us with
      | (merged, some e) => (replaceE acc k (FsTree.dir merged), some e)
      | (merged, none) => mergeInto rest (replaceE acc k (FsTree.dir merged))
    | none => mergeInto rest (acc ++ [(k, FsTree.dir ts)])
  termination_by l _ => sizeOf l

/-- Models the call fs_extra::dir::copy(tmp_path/package, current_dir,
default options) of main.rs (lines 167-176): copy the source directory
into the destination directory as a child named after the source
basename (copy_inside is false by default). It faults when the source
entry is missing or is not a directory; when the target name exists as
a file it faults; when the target name exists as a directory the copy
merges into it per mergeInto; a fresh target name receives the source
tree verbatim. Only the entry named after the package is ever touched.
Returns the resulting working-directory entries (partial on a fault)
together with the error, if any; run maps the error to
Error::FileSystemFault (main.rs lines 173-176). -/
def copyStep (staged cwd : List (String × FsTree)) (package : String) :
    List (String × FsTree) × Option Error :=
  match lookupE staged package with
  | none => (cwd, some Error.FileSystemFault)
  | some FsTree.file => (cwd, some Error.FileSystemFault)
  | some (FsTree.dir ts) =>
    match lookupE cwd package with
    | some FsTree.file => (cwd, some Error.FileSystemFault)
    | some (FsTree.dir us) =>
      match mergeInto ts us with
      | (merged, err) => (replaceE cwd package (FsTree.dir merged), err)
    | none => (cwd ++ [(package, FsTree.dir ts)], none)

/-- Models std::fs::rename(package, dest) of main.rs (lines 178-181),
with rename(2) semantics on Linux: fails if the source is missing;
renaming a name to itself succeeds and changes nothing; if the target
name exists, a directory source silently replaces an empty directory
target and fails on any other target, and a file source replaces a
file target and fails on a directory target. The source maps the error
to Error::FileSystemRename. -/
def renameStep (cwd : List (String × FsTree)) (src dst : String) :
    Except Error (List (String × FsTree)) :=
  match lookupE cwd src with
  | none => .error Error.FileSystemRename
  | some t =>
    if src = dst then .ok cwd
    else match lookupE cwd dst with
      | none => .ok (removeE cwd src ++ [(dst, t)])
      | some u =>
        if t.isDir then
          if u.isEmptyDir then .ok (removeE (removeE cwd src) dst ++ [(dst, t)])
          else .error Error.FileSystemRename
        else
          if u.isDir then .error Error.FileSystemRename
          else .ok (removeE (removeE cwd src) dst ++ [(dst, t)])

/-- The materialization phase of run (main.rs lines 166-188): the copy
of tmp_path/package into the working directory, then the rename of the
copied entry to the destination name. The remove_dir_all call that
would delete the .git directory (lines 183-186) is commented out in
the source and therefore absent here. Returns the resulting working
directory entries together with the error, if any; on an error the
entries reflect the steps that had already succeeded. -/
def materialize (staged cwd : List (String × FsTree)) (package dest : String) :
    List (String × FsTree) × Option Error :=
  match copyStep staged cwd package with
  | (cwd1, some e) => (cwd1, some e)
  | (cwd1, none) =>
    match renameStep cwd1 package dest with
    | .error e => (cwd1, some e)
    | .ok cwd2 => (cwd2, none)

/-- The four externally visible pipeline steps of one run. -/
inductive Step where
  | resolve
  | fetch
  | copy
  | rename
  deriving DecidableEq

/-- The whole pipeline of main.rs: main builds the Context via
Context::try_from (line 218) and run (lines 131-189) clones into the
staging path and then materializes. The clone outcome is supplied by
the fetch oracle: none models a git2 failure, which run maps to
Error::GitFault (line 164); some staged models a successful clone with
the given staged tree. Returns the final error, if any, and the list
of attempted steps in order. -/
def pipelineModel (a : Args) (tmpPath : List String)
    (currentDir : Except Error (List String))
    (fetched : Option (List (String × FsTree)))
    (cwd : List (String × FsTree)) : Option Error × List Step :=
  match tryFrom a tmpPath currentDir with
  | .error e => (some e, [Step.resolve])
  | .ok ctx =>
    match fetched with
    | none => (some Error.GitFault, [Step.resolve, Step.fetch])
    | some staged =>
      match copyStep staged cwd ctx.package with
      | (_, some e) => (some e, [Step.resolve, Step.fetch, Step.copy])
      | (cwd1, none) =>
        match renameStep cwd1 ctx.package ctx.path with
        | .error e => (some e, [Step.resolve, Step.fetch, Step.copy, Step.rename])
        | .ok _ => (none, [Step.resolve, Step.fetch, Step.copy, Step.rename])

/-! ## Path relations for the staging-isolation claim -/

/-- a is an ancestor of b or equal to it: b extends a. -/
def isUnder (a b : List String) : Prop :=
  ∃ c, b = a ++ c

/-- Two paths are related when one is equal to, an ancestor of, or a
descendant of the other. -/
def related (a b : List String) : Prop :=
  isUnder a b ∨ isUnder b a

/-- The final destination path of a run: the destination name joined
to the working directory. -/
def destPathOf (c : Context) : List String :=
  c.current_dir ++ [c.path]

/-- The Context produced in the C9 counterexample: the run whose
working directory is /tmp itself, whose destination name happens to
equal the staging token, and whose allocator drew the token AAAAAAA. -/
def ctxC9 : Context :=
  { url := "https://github.com/tenheadedlion/phat-contract-starter.git",
    branch := "plain-phat-contract",
    package := "erc20-497c0f607b393edb86f8da1bf053fb06",
    tmp_path := random_path (fun _ => 0), path := "AAAAAAA", current_dir := ["tmp"] }

/-- The Context of the C9 witness: a run launched from /home. -/
def ctxC9w : Context :=
  { url := "https://github.com/tenheadedlion/phat-contract-starter.git",
    branch := "plain-phat-contract",
    package := "erc20-497c0f607b393edb86f8da1bf053fb06",
    tmp_path := random_path (fun _ => 0), path := "d", current_dir := ["home"] }

/-! ## Progress aggregation and rendering

The transfer statistics of git2 (Progress), the mutable State cell of
main.rs (lines 79-85), and the print routine (lines 87-129). Rendering
is modelled as a list of output tokens; a Rust panic (the unwrap of an
absent progress record, or an integer division by zero) is the Option
value none. -/

/-- The git2 Progress statistics snapshot stored by the transfer
callback. -/
structure GitProgress where
  totalObjects : Nat
  indexedObjects : Nat
  receivedObjects : Nat
  totalDeltas : Nat
  indexedDeltas : Nat
  receivedBytes : Nat
  deriving DecidableEq

/-- The State struct of main.rs (lines 79-85). -/
structure State where
  progress : Option GitProgress
  total : Nat
  current : Nat
  path : Option String
  newline : Bool
  deriving DecidableEq

/-- One rendered output token of print: the phase-transition newline
(println! at line 99), the delta-resolution status line (lines
102-106), or the phase-one status line (lines 108-126) carrying the
network percent, received kilobytes, received/total object counts, the
index percent, indexed object count, checkout percent, checkout
current/total counts and current path. -/
inductive Out where
  | nl : Out
  | delta (indexed total : Nat) : Out
  | status (net kbytes recv totObj idx idxObj co cur tot : Nat) (path : String) : Out
  deriving DecidableEq

/-- Rust usize division, which panics when the divisor is 0. -/
def checkedDiv (a b : Nat) : Option Nat :=
  if b = 0 then none else some (a / b)

/-- The print routine of main.rs (lines 87-129). It unwraps the stored
progress record (line 88, panic when absent), computes the network and
index percents by unguarded division (lines 89-90, panic when
total_objects is 0), computes the checkout percent with a zero guard
(lines 91-95), then renders: when received equals total it emits one
newline if none was emitted yet, setting the flag, and prints the
delta-resolution line; otherwise it prints the phase-one status
line. -/
def print (s : State) : Option (State × List Out) :=
  match s.progress with
  | none => none
  | some stats =>
    match checkedDiv (100 * stats.receivedObjects) stats.totalObjects with
    | none => none
    | some networkPct =>
      match checkedDiv (100 * stats.indexedObjects) stats.totalObjects with
      | none => none
      | some indexPct =>
        let coPct := if s.total > 0 then (100 * s.current) / s.total else 0
        let kbytes := stats.receivedBytes / 1024
        if stats.receivedObjects = stats.totalObjects then
          if s.newline = false then
            some ({ s with newline := true },
                  [Out.nl, Out.delta stats.indexedDeltas stats.totalDeltas])
          else
            some (s, [Out.delta stats.indexedDeltas stats.totalDeltas])
        else
          some (s, [Out.status networkPct kbytes stats.receivedObjects stats.totalObjects
                      indexPct stats.indexedObjects coPct s.current s.total
                      (s.path.getD "")])

/-- A progress event: a transfer-progress callback invocation (main.rs
lines 140-145) or a checkout-progress callback invocation (lines
148-154). -/
inductive Event where
  | net (stats : GitProgress) : Event
  | checkout (path : Option String) (current total : Nat) : Event

/-- One callback invocation: store the event data in the state, then
render. The transfer callback stores the statistics snapshot; the
checkout callback stores the path and the current/total counts. -/
def step (s : State) : Event → Option (State × List Out)
  | .net stats => print { s with progress := some stats }
  | .checkout p cur tot => print { s with path := p, current := cur, total := tot }

/-- Process a sequence of progress events from a starting state,
collecting the rendered output; a panic (none) ends the run, keeping
the output rendered before it. -/
def processEvents (s : State) : List Event → Option State × List Out
  | [] => (some s, [])
  | e :: es =>
    match step s e with
    | none => (none, [])
    | some (s1, out) =>
      let rest := processEvents s1 es
      (rest.1, out ++ rest.2)

/-- The initial state built at the top of run (main.rs lines 132-138). -/
def initState : State :=
  { progress := none, total := 0, current := 0, path := none, newline := false }

/-- Whether an output token is the phase-transition newline. -/
def isNl : Out → Bool
  | .nl => true
  | _ => false

/-- Whether an output token is the delta-resolution line. -/
def isDelta : Out → Bool
  | .delta _ _ => true
  | _ => false

/-- Whether an event is a transfer-progress event. -/
def isNet : Event → Bool
  | .net _ => true
  | _ => false

/-- Number of phase-transition newlines in an output list. -/
def nlCount (outs : List Out) : Nat :=
  (outs.filter isNl).length

/-- The two-phase rendering discipline relative to the newline flag:
a delta line appears only once the flag is set, a newline appears only
while the flag is unset, and emitting the newline sets the flag. -/
def rendersOk : Bool → List Out → Prop
  | _, [] => True
  | b, a :: rest =>
    (isDelta a = true → b = true) ∧ (isNl a = true → b = false)
      ∧ rendersOk (b || isNl a) rest

/-! ## Theorems -/

/-- C2: resolution is exact-match lookup in the fixed two-entry table:
a known identifier resolves to exactly the compiled-in
(location, branch, subdirectory) triple carried into the Context, and
every other identifier fails with NoSuchClass, with no fallback. -/
theorem c2_resolution_exact (a : Args) (tmpPath : List String) :
    (urlsGet a.cls =
      if a.cls = "phat-contract-with-sideprog" then
        some ("https://github.com/tenheadedlion/phat-contract-starter.git", "master",
              "log_server-a00c26e4ff2173713db9afca5a82aee3")
      else if a.cls = "phat-contract" then
        some ("https://github.com/tenheadedlion/phat-contract-starter.git",
              "plain-phat-contract", "erc20-497c0f607b393edb86f8da1bf053fb06")
      else none)
    ∧ (∀ u b p cd, urlsGet a.cls = some (u, b, p) →
        tryFrom a tmpPath (.ok cd) =
          .ok { url := u, branch := b, package := p,
                tmp_path := tmpPath, path := a.dest, current_dir := cd })
    ∧ (urlsGet a.cls = none →
        ∀ currentDir, tryFrom a tmpPath currentDir = .error Error.NoSuchClass) := by
  refine ⟨?_, ?_, ?_⟩
  · by_cases h1 : a.cls = "phat-contract-with-sideprog"
    · simp [urlsGet, URLS, List.lookup, beq_iff_eq, h1]
    · by_cases h2 : a.cls = "phat-contract"
      · simp [urlsGet, URLS, List.lookup, beq_iff_eq, h1, h2]
      · have e1 : (a.cls == "phat-contract-with-sideprog") = false := by
          simp only [beq_eq_false_iff_ne, ne_eq]; exact h1
        have e2 : (a.cls == "phat-contract") = false := by
          simp only [beq_eq_false_iff_ne, ne_eq]; exact h2
        simp [urlsGet, URLS, List.lookup, e1, e2, h1, h2]
  · intro u b p cd h
    simp [tryFrom, h]
  · intro h currentDir
    simp [tryFrom, h]

/-- C2 witness: the known identifier "phat-contract" resolves to its
table entry. -/
theorem c2_resolution_exact_witness :
    tryFrom { cls := "phat-contract", dest := "d" } ["tmp", "abcdefg"] (.ok ["home"]) =
      .ok { url := "https://github.com/tenheadedlion/phat-contract-starter.git",
            branch := "plain-phat-contract",
            package := "erc20-497c0f607b393edb86f8da1bf053fb06",
            tmp_path := ["tmp", "abcdefg"], path := "d", current_dir := ["home"] } :=
  (c2_resolution_exact { cls := "phat-contract", dest := "d" } ["tmp", "abcdefg"]).2.1
    _ _ _ ["home"] (by decide)

/-- C8: every allocator result is a path of exactly two components, the
first being the shared temporary area "tmp" (so the path sits directly
under /tmp), and the second a token of exactly 7 alphanumeric
characters; the allocator is a pure path computation. -/
theorem c8_random_path_shape (rng : Nat → Nat) :
    (random_path rng).length = 2
    ∧ (random_path rng).head? = some "tmp"
    ∧ ∃ tok : String,
        random_path rng = ["tmp", tok]
        ∧ tok.length = 7
        ∧ tok.toList.all (fun c => c.isAlpha || c.isDigit) = true := by
  refine ⟨rfl, rfl, String.mk ((List.range 7).map fun i => sampleAlphanumeric (rng i)),
    rfl, by simp [String.length], ?_⟩
  simp only [String.toList, String.mk, List.all_eq_true, List.mem_map]
  rintro c ⟨i, -, rfl⟩
  have hlt : rng i % 62 < 62 := Nat.mod_lt _ (by decide)
  have : ∀ m : Nat, m < 62 →
      ((alphanumChars.getD m 'A').isAlpha || (alphanumChars.getD m 'A').isDigit) = true := by
    decide
  exact this _ hlt


/-! ## Entry-list lemmas -/

theorem lookupE_append_of_none {l : List (String × FsTree)} {k : String}
    (h : lookupE l k = none) (t : FsTree) (l2 : List (String × FsTree)) :
    lookupE (l ++ (k, t) :: l2) k = some t := by
  induction l with
  | nil => simp [lookupE]
  | cons hd tl ih =>
    obtain ⟨k0, t0⟩ := hd
    by_cases hk : k0 = k
    · simp [lookupE, hk] at h
    · simp only [lookupE, List.cons_append, hk, if_false]
      exact ih (by simpa [lookupE, hk] using h)

theorem lookupE_append_left {l l2 : List (String × FsTree)} {k : String} {t : FsTree}
    (h : lookupE l k = some t) : lookupE (l ++ l2) k = some t := by
  induction l with
  | nil => simp [lookupE] at h
  | cons hd tl ih =>
    obtain ⟨k0, t0⟩ := hd
    by_cases hk : k0 = k
    · simp_all [lookupE]
    · simp only [lookupE, List.cons_append, hk, if_false] at h ⊢
      exact ih h

theorem lookupE_removeE_self (l : List (String × FsTree)) (k : String) :
    lookupE (removeE l k) k = none := by
  induction l with
  | nil => simp [removeE, lookupE]
  | cons hd tl ih =>
    obtain ⟨k0, t0⟩ := hd
    by_cases hk : k0 = k
    · simpa [removeE, hk] using ih
    · simpa [removeE, lookupE, hk] using ih

theorem lookupE_removeE_ne {l : List (String × FsTree)} {k n : String}
    (h : n ≠ k) : lookupE (removeE l n) k = lookupE l k := by
  induction l with
  | nil => simp [removeE]
  | cons hd tl ih =>
    obtain ⟨k0, t0⟩ := hd
    by_cases hk : k0 = n
    · have hkk : k0 ≠ k := fun hh => h (hk.symm.trans hh)
      simp only [removeE, hk, if_true]
      rw [ih]
      simp [lookupE, hkk, h]
    · simp only [removeE, hk, if_false, lookupE]
      by_cases hk2 : k0 = k
      · simp [hk2]
      · simp [hk2, ih]

theorem lookupE_append_single_ne {k n : String} (h : k ≠ n)
    (l : List (String × FsTree)) (t : FsTree) :
    lookupE (l ++ [(k, t)]) n = lookupE l n := by
  induction l with
  | nil => simp [lookupE, h]
  | cons hd tl ih =>
    obtain ⟨k0, t0⟩ := hd
    by_cases hk : k0 = n <;> simp [lookupE, hk, ih]

theorem lookupE_replaceE_ne {k n : String} (h : k ≠ n)
    (l : List (String × FsTree)) (t : FsTree) :
    lookupE (replaceE l k t) n = lookupE l n := by
  induction l with
  | nil => simp [replaceE]
  | cons hd tl ih =>
    obtain ⟨k0, t0⟩ := hd
    by_cases hk : k0 = k
    · have hk0n : k0 ≠ n := by rw [hk]; exact h
      simp [replaceE, lookupE, hk, h, hk0n]
    · have hnk : n ≠ k := fun hh => h hh.symm
      by_cases hk2 : k0 = n <;> simp [replaceE, lookupE, hk, hk2, hnk, ih]

theorem lookupE_replaceE_self {l : List (String × FsTree)} {k : String} {u : FsTree}
    (h : lookupE l k = some u) (t : FsTree) :
    lookupE (replaceE l k t) k = some t := by
  induction l with
  | nil => simp [lookupE] at h
  | cons hd tl ih =>
    obtain ⟨k0, t0⟩ := hd
    by_cases hk : k0 = k
    · simp [replaceE, lookupE, hk]
    · simp only [lookupE, hk, if_false] at h
      simp [replaceE, lookupE, hk, ih h]

theorem copyStep_preserves (staged cwd : List (String × FsTree)) (package n : String)
    (hn : n ≠ package) :
    lookupE (copyStep staged cwd package).1 n = lookupE cwd n := by
  unfold copyStep
  cases lookupE staged package with
  | none => rfl
  | some t =>
    cases t with
    | file => rfl
    | dir ts =>
      cases lookupE cwd package with
      | none =>
        exact lookupE_append_single_ne (fun hh => hn hh.symm) cwd (FsTree.dir ts)
      | some u =>
        cases u with
        | file => rfl
        | dir us =>
          show lookupE ((match mergeInto ts us with
              | (merged, err) => (replaceE cwd package (FsTree.dir merged), err)).1) n
            = lookupE cwd n
          rcases hm : mergeInto ts us with ⟨merged, err⟩
          exact lookupE_replaceE_ne (fun hh => hn hh.symm) cwd (FsTree.dir merged)

theorem copyStep_fresh {staged cwd : List (String × FsTree)} {package : String}
    {cwd1 : List (String × FsTree)}
    (hfresh : lookupE cwd package = none)
    (h : copyStep staged cwd package = (cwd1, none)) :
    ∃ ts, lookupE staged package = some (FsTree.dir ts)
      ∧ cwd1 = cwd ++ [(package, FsTree.dir ts)] := by
  unfold copyStep at h
  cases hl : lookupE staged package with
  | none =>
    simp only [hl, Prod.mk.injEq] at h
    exact absurd h.2 (by simp)
  | some t =>
    cases t with
    | file =>
      simp only [hl, Prod.mk.injEq] at h
      exact absurd h.2 (by simp)
    | dir ts =>
      simp only [hl, hfresh, Prod.mk.injEq] at h
      exact ⟨ts, rfl, h.1.symm⟩

theorem copyStep_success_package {staged cwd : List (String × FsTree)} {package : String}
    {cwd1 : List (String × FsTree)}
    (h : copyStep staged cwd package = (cwd1, none)) :
    ∃ ts, lookupE cwd1 package = some (FsTree.dir ts) := by
  unfold copyStep at h
  cases hl : lookupE staged package with
  | none =>
    simp only [hl, Prod.mk.injEq] at h
    exact absurd h.2 (by simp)
  | some t =>
    cases t with
    | file =>
      simp only [hl, Prod.mk.injEq] at h
      exact absurd h.2 (by simp)
    | dir ts =>
      simp only [hl] at h
      cases hcw : lookupE cwd package with
      | none =>
        simp only [hcw, Prod.mk.injEq] at h
        exact ⟨ts, by rw [← h.1]; exact lookupE_append_of_none hcw _ []⟩
      | some u =>
        cases u with
        | file =>
          simp only [hcw, Prod.mk.injEq] at h
          exact absurd h.2 (by simp)
        | dir us =>
          simp only [hcw] at h
          rcases hm : mergeInto ts us with ⟨merged, err⟩
          simp only [hm, Prod.mk.injEq] at h
          exact ⟨merged, by rw [← h.1]; exact lookupE_replaceE_self hcw (FsTree.dir merged)⟩

/-- Boundary exhibit for the materializer model: with a pre-existing
directory named after the subdirectory, fs_extra merge-copies into it,
so a successful materialization can place the merge (here retaining a
stray file) rather than the staged subtree alone; this is why the
fresh-target hypothesis of the C4 theorem is needed. -/
theorem materialize_merge_keeps_stray :
    materialize [("pkg", FsTree.dir [("a", FsTree.file)])]
        [("pkg", FsTree.dir [("stray", FsTree.file)])] "pkg" "proj"
      = ([("proj", FsTree.dir [("stray", FsTree.file), ("a", FsTree.file)])], none) := by
  simp [materialize, copyStep, mergeInto, lookupE, replaceE, renameStep, removeE]

/-- Boundary exhibit: when the destination name equals the
subdirectory's name and pre-exists as a directory with no conflicting
files, the copy merges into it and the same-name rename is a no-op, so
materialization succeeds and modifies the pre-existing entry; this is
why the distinct-names hypothesis of the C5 theorem is needed. -/
theorem materialize_merge_same_name_succeeds :
    materialize [("pkg", FsTree.dir [("a", FsTree.file)])]
        [("pkg", FsTree.dir [("b", FsTree.file)])] "pkg" "pkg"
      = ([("pkg", FsTree.dir [("b", FsTree.file), ("a", FsTree.file)])], none) := by
  simp [materialize, copyStep, mergeInto, lookupE, replaceE, renameStep]

/-- C4 counterexample: a successful materialization whose staged
subtree carries a .git directory leaves that .git directory in the
destination, because the remove_dir_all call of main.rs lines 183-186
is commented out; so the claim that a successful materialization
leaves no version-control metadata in the destination is false on this
input. -/
theorem c4_counterexample :
    materialize
        [("pkg", FsTree.dir [(".git", FsTree.dir [("HEAD", FsTree.file)]),
                             ("src", FsTree.file)])]
        [] "pkg" "myproj"
      = ([("myproj", FsTree.dir [(".git", FsTree.dir [("HEAD", FsTree.file)]),
                                 ("src", FsTree.file)])], none)
    ∧ lookupE [(".git", FsTree.dir [("HEAD", FsTree.file)]), ("src", FsTree.file)] ".git"
        = some (FsTree.dir [("HEAD", FsTree.file)]) :=
  ⟨rfl, rfl⟩

/-- C4 (amended): when the working directory has no pre-existing entry
named after the template subdirectory, a successful materialization
holds, under exactly the requested destination name, the staged
subtree verbatim; in particular no version-control metadata inside it
is deleted, since the metadata-removal step is commented out in the
source. (With a pre-existing directory of the subdirectory's name,
fs_extra merge-copies into it, so the destination then holds the
merge, not the staged subtree alone.) -/
theorem c4_materialize_dest (staged cwd : List (String × FsTree))
    (package dest : String) (out : List (String × FsTree))
    (hfresh : lookupE cwd package = none)
    (h : materialize staged cwd package dest = (out, none)) :
    ∃ t, lookupE staged package = some t ∧ lookupE out dest = some t := by
  unfold materialize at h
  rcases hc : copyStep staged cwd package with ⟨cwd1, _ | e2⟩
  case mk.some =>
    simp only [hc, Prod.mk.injEq] at h
    exact absurd h.2 (by simp)
  case mk.none =>
    simp only [hc] at h
    obtain ⟨ts, hl, hcw1⟩ := copyStep_fresh hfresh hc
    have hd : FsTree.isDir (FsTree.dir ts) = true := rfl
    cases hr : renameStep cwd1 package dest with
    | error e =>
      simp only [hr, Prod.mk.injEq] at h
      exact absurd h.2 (by simp)
    | ok cwd2 =>
      simp only [hr, Prod.mk.injEq] at h
      obtain ⟨hout, -⟩ := h
      subst hout
      refine ⟨FsTree.dir ts, hl, ?_⟩
      have hsrc : lookupE cwd1 package = some (FsTree.dir ts) := by
        rw [hcw1]
        exact lookupE_append_of_none hfresh _ []
      unfold renameStep at hr
      simp only [hsrc] at hr
      by_cases hpd : package = dest
      · rw [if_pos hpd] at hr
        simp only [Except.ok.injEq] at hr
        rw [← hr, ← hpd]
        exact hsrc
      · rw [if_neg hpd] at hr
        cases hdst : lookupE cwd1 dest with
        | none =>
          simp only [hdst, Except.ok.injEq] at hr
          rw [← hr]
          apply lookupE_append_of_none _ _ []
          rw [lookupE_removeE_ne hpd]
          exact hdst
        | some u =>
          simp only [hdst] at hr
          rw [if_pos hd] at hr
          by_cases hu : FsTree.isEmptyDir u = true
          · rw [if_pos hu] at hr
            simp only [Except.ok.injEq] at hr
            rw [← hr]
            apply lookupE_append_of_none _ _ []
            exact lookupE_removeE_self _ dest
          · rw [if_neg hu] at hr
            exact Except.noConfusion hr

/-- C4 witness: a concrete successful materialization into a working
directory with no conflicting entry; the destination entry is the
staged subtree. -/
theorem c4_materialize_dest_witness :
    ∃ t, lookupE [("pkg", FsTree.dir [("a", FsTree.file)])] "pkg" = some t
      ∧ lookupE [("proj", FsTree.dir [("a", FsTree.file)])] "proj" = some t :=
  c4_materialize_dest [("pkg", FsTree.dir [("a", FsTree.file)])] [] "pkg" "proj"
    [("proj", FsTree.dir [("a", FsTree.file)])] rfl rfl

/-- C5 counterexample: when the destination name exists beforehand as
an empty directory, materialization does not fail: the rename silently
replaces the pre-existing empty directory (rename(2) semantics), so the
claim that any pre-existing destination entry makes materialization
fail and is left unchanged is false on this input. -/
theorem c5_counterexample :
    lookupE [("proj", FsTree.dir [])] "proj" = some (FsTree.dir [])
    ∧ materialize [("pkg", FsTree.dir [("a", FsTree.file)])]
        [("proj", FsTree.dir [])] "pkg" "proj"
      = ([("proj", FsTree.dir [("a", FsTree.file)])], none) :=
  ⟨rfl, rfl⟩

/-- C5 (amended): when the destination name exists beforehand as a
file or as a non-empty directory, and differs from the template
subdirectory's name, materialization fails (with a copy fault or a
rename fault) and the pre-existing destination entry is still present,
unchanged, afterwards. A pre-existing empty directory is instead
silently replaced by the rename, and when the destination name equals
the subdirectory's name the copy can merge into the pre-existing
directory and succeed, modifying it in place. -/
theorem c5_existing_dest_fails (staged cwd : List (String × FsTree))
    (package dest : String) (e : FsTree)
    (hdest : lookupE cwd dest = some e) (hbad : FsTree.isEmptyDir e = false)
    (hpd : package ≠ dest) :
    (materialize staged cwd package dest).2.isSome = true
    ∧ lookupE (materialize staged cwd package dest).1 dest = some e := by
  have hpres : lookupE (copyStep staged cwd package).1 dest = some e := by
    rw [copyStep_preserves staged cwd package dest (fun hh => hpd hh.symm)]
    exact hdest
  unfold materialize
  rcases hc : copyStep staged cwd package with ⟨cwd1, _ | e2⟩
  case mk.some =>
    rw [hc] at hpres
    simp only [hc]
    exact ⟨rfl, hpres⟩
  case mk.none =>
    rw [hc] at hpres
    have hdst1 : lookupE cwd1 dest = some e := hpres
    obtain ⟨ts, hsrc⟩ := copyStep_success_package hc
    have hr : renameStep cwd1 package dest = .error Error.FileSystemRename := by
      unfold renameStep
      simp only [hsrc]
      rw [if_neg hpd]
      simp only [hdst1]
      rw [if_pos (show FsTree.isDir (FsTree.dir ts) = true from rfl),
          if_neg (by rw [hbad]; exact Bool.false_ne_true)]
    simp only [hc, hr]
    exact ⟨rfl, hdst1⟩

/-- C5 witness: a pre-existing destination file (named differently
from the subdirectory) makes a concrete materialization fail and
survive unchanged. -/
theorem c5_existing_dest_fails_witness :
    (materialize [("pkg", FsTree.dir [])] [("proj", FsTree.file)] "pkg" "proj").2.isSome = true
    ∧ lookupE (materialize [("pkg", FsTree.dir [])] [("proj", FsTree.file)] "pkg" "proj").1
        "proj" = some FsTree.file :=
  c5_existing_dest_fails [("pkg", FsTree.dir [])] [("proj", FsTree.file)] "pkg" "proj"
    FsTree.file rfl rfl (by decide)

/-- C6: the pipeline attempts resolve, fetch, copy, rename in exactly
that order, each at most once (the attempted-step trace is always one
of the four listed prefixes), and short-circuits on first failure: a
resolution failure stops before fetch, a fetch failure surfaces
GitFault and stops before copy and rename, and a copy failure stops
before rename. -/
theorem c6_pipeline_order (a : Args) (tmpPath : List String)
    (currentDir : Except Error (List String))
    (fetched : Option (List (String × FsTree))) (cwd : List (String × FsTree)) :
    ((pipelineModel a tmpPath currentDir fetched cwd).2 = [Step.resolve]
      ∨ (pipelineModel a tmpPath currentDir fetched cwd).2 = [Step.resolve, Step.fetch]
      ∨ (pipelineModel a tmpPath currentDir fetched cwd).2 = [Step.resolve, Step.fetch, Step.copy]
      ∨ (pipelineModel a tmpPath currentDir fetched cwd).2
          = [Step.resolve, Step.fetch, Step.copy, Step.rename])
    ∧ (∀ e, tryFrom a tmpPath currentDir = .error e →
        pipelineModel a tmpPath currentDir fetched cwd = (some e, [Step.resolve]))
    ∧ (∀ ctx, tryFrom a tmpPath currentDir = .ok ctx → fetched = none →
        pipelineModel a tmpPath currentDir fetched cwd
          = (some Error.GitFault, [Step.resolve, Step.fetch]))
    ∧ (∀ ctx staged e2, tryFrom a tmpPath currentDir = .ok ctx → fetched = some staged →
        (copyStep staged cwd ctx.package).2 = some e2 →
        pipelineModel a tmpPath currentDir fetched cwd
          = (some e2, [Step.resolve, Step.fetch, Step.copy])) := by
  refine ⟨?_, ?_, ?_, ?_⟩
  · unfold pipelineModel
    rcases ht : tryFrom a tmpPath currentDir with e | ctx
    · simp [ht]
    · rcases fetched with _ | staged
      · simp [ht]
      · rcases hc : copyStep staged cwd ctx.package with ⟨cwd1, _ | e2⟩
        · rcases hr : renameStep cwd1 ctx.package ctx.path with e3 | cwd2 <;>
            simp [ht, hc, hr]
        · simp [ht, hc]
  · intro e ht
    simp [pipelineModel, ht]
  · intro ctx ht hf
    simp [pipelineModel, ht, hf]
  · intro ctx staged e2 ht hf hc
    rcases hcp : copyStep staged cwd ctx.package with ⟨cwd1, err⟩
    rw [hcp] at hc
    have herr : err = some e2 := hc
    subst herr
    simp [pipelineModel, ht, hf, hcp]

/-- C6 witness: with a known identifier and a failing fetch, the run
stops with GitFault after resolve and fetch only. -/
theorem c6_pipeline_order_witness :
    pipelineModel { cls := "phat-contract", dest := "d" } ["tmp", "x"] (.ok ["home"]) none []
      = (some Error.GitFault, [Step.resolve, Step.fetch]) :=
  (c6_pipeline_order { cls := "phat-contract", dest := "d" } ["tmp", "x"]
      (.ok ["home"]) none []).2.2.1
    { url := "https://github.com/tenheadedlion/phat-contract-starter.git",
      branch := "plain-phat-contract",
      package := "erc20-497c0f607b393edb86f8da1bf053fb06",
      tmp_path := ["tmp", "x"], path := "d", current_dir := ["home"] }
    rfl rfl

/-! ## Staging-path isolation -/

theorem head_eq_of_isUnder {x y : List String} (hx : x ≠ []) (h : isUnder x y) :
    y.head? = x.head? := by
  obtain ⟨c, rfl⟩ := h
  cases x with
  | nil => exact absurd rfl hx
  | cons a x2 => rfl

theorem not_related_of_head_ne {x y : List String} (hx : x ≠ []) (hy : y ≠ [])
    (h : x.head? ≠ y.head?) : ¬ related x y := by
  rintro (hu | hu)
  · exact h (head_eq_of_isUnder hx hu).symm
  · exact h (head_eq_of_isUnder hy hu)



/-- C9 counterexample: a context constructed by Context::try_from whose
staging path coincides with the final destination path (working
directory /tmp, destination name equal to the staging token), so the
claim that the staging path of every constructed context is unrelated
to the working directory and destination is false. -/
theorem c9_counterexample :
    tryFrom { cls := "phat-contract", dest := "AAAAAAA" } (random_path (fun _ => 0))
        (.ok ["tmp"]) = .ok ctxC9
    ∧ ctxC9.tmp_path = destPathOf ctxC9
    ∧ related ctxC9.tmp_path (destPathOf ctxC9) := by
  refine ⟨rfl, ?_, ?_⟩
  · show random_path (fun _ => 0) = ["tmp", "AAAAAAA"]
    rfl
  · show related (random_path (fun _ => 0)) (["tmp"] ++ ["AAAAAAA"])
    rw [show random_path (fun _ => 0) = ["tmp", "AAAAAAA"] from rfl]
    exact Or.inl ⟨[], rfl⟩

/-- C9 (amended): the staging path always lives directly under /tmp,
so for every context whose working directory is nonempty and does not
itself start at /tmp, the staging path is neither equal to, nor an
ancestor of, nor a descendant of the working directory or the final
destination path; the unrestricted claim fails when the working
directory is the root or lies under /tmp (see the counterexample). -/
theorem c9_staging_isolated (a : Args) (rng : Nat → Nat) (cwd : List String)
    (c : Context)
    (h : tryFrom a (random_path rng) (.ok cwd) = .ok c)
    (hne : cwd ≠ []) (hhead : cwd.head? ≠ some "tmp") :
    ¬ related c.tmp_path c.current_dir ∧ ¬ related c.tmp_path (destPathOf c) := by
  unfold tryFrom at h
  cases hu : urlsGet a.cls with
  | none =>
    simp only [hu] at h
    exact Except.noConfusion h
  | some u =>
    simp only [hu, Except.ok.injEq] at h
    have htmp : c.tmp_path = random_path rng := by rw [← h]
    have hcd : c.current_dir = cwd := by rw [← h]
    have hpath : destPathOf c = cwd ++ [c.path] := by rw [destPathOf, hcd]
    have hstag : c.tmp_path =
        ["tmp", String.mk ((List.range 7).map fun i => sampleAlphanumeric (rng i))] := htmp
    constructor
    · rw [hstag, hcd]
      apply not_related_of_head_ne (by simp) hne
      intro hh
      exact hhead hh.symm
    · rw [hstag, hpath]
      apply not_related_of_head_ne (by simp) (by simp)
      intro hh
      have hch : (cwd ++ [c.path]).head? = cwd.head? := by
        cases cwd with
        | nil => exact absurd rfl hne
        | cons b l => rfl
      rw [hch] at hh
      exact hhead (by simpa using hh.symm)

/-- C9 witness: for a run launched from /home, the staging path is
unrelated to both the working directory and the destination path. -/
theorem c9_staging_isolated_witness :
    ¬ related ctxC9w.tmp_path ctxC9w.current_dir
    ∧ ¬ related ctxC9w.tmp_path (destPathOf ctxC9w) :=
  c9_staging_isolated { cls := "phat-contract", dest := "d" } (fun _ => 0) ["home"]
    ctxC9w rfl (by simp) (by simp)


/-- C1 counterexample: a transfer-progress render with total object
count 0 faults (the unguarded divisions at main.rs lines 89-90 divide
by zero), so the claim that networkPercent and indexPercent are
computed as 0 and the rendering routine is total on this input is
false. -/
theorem c1_counterexample :
    print { progress := some { totalObjects := 0, indexedObjects := 0, receivedObjects := 0,
                               totalDeltas := 0, indexedDeltas := 0, receivedBytes := 0 },
            total := 0, current := 0, path := none, newline := false } = none :=
  rfl

/-- C1 (amended): given a stored progress record, the render faults by
division by zero exactly when the total object count is 0: the network
and index percent divisions are unguarded (only the checkout percent
is guarded), and with a nonzero total the render succeeds. -/
theorem c1_zero_total_faults (s : State) (stats : GitProgress)
    (h : s.progress = some stats) :
    (stats.totalObjects = 0 → print s = none)
    ∧ (stats.totalObjects ≠ 0 → (print s).isSome = true) := by
  constructor
  · intro hz
    unfold print
    rw [h]
    simp [checkedDiv, hz]
  · intro hz
    unfold print
    simp only [h, checkedDiv, if_neg hz]
    by_cases hrt : stats.receivedObjects = stats.totalObjects
    · by_cases hn : s.newline = false <;> simp [hrt, hn]
    · simp [hrt]

/-- C1 witness: with total object count 8 the render succeeds. -/
theorem c1_zero_total_faults_witness :
    (print { progress := some { totalObjects := 8, indexedObjects := 3, receivedObjects := 4,
                                totalDeltas := 0, indexedDeltas := 0, receivedBytes := 1024 },
             total := 0, current := 0, path := none, newline := false }).isSome = true :=
  (c1_zero_total_faults _ _ rfl).2 (by decide)

theorem print_fields {s s1 : State} {out : List Out} (h : print s = some (s1, out)) :
    s1.path = s.path ∧ s1.current = s.current ∧ s1.total = s.total
    ∧ ∀ net kb recv totObj idx idxObj co cur2 tot2 pa,
        Out.status net kb recv totObj idx idxObj co cur2 tot2 pa ∈ out →
          co = (if s.total > 0 then (100 * s.current) / s.total else 0)
          ∧ cur2 = s.current ∧ tot2 = s.total := by
  unfold print at h
  cases hp : s.progress with
  | none =>
    simp only [hp] at h
    exact Option.noConfusion h
  | some stats =>
    simp only [hp] at h
    cases hd1 : checkedDiv (100 * stats.receivedObjects) stats.totalObjects with
    | none =>
      simp only [hd1] at h
      exact Option.noConfusion h
    | some npct =>
      simp only [hd1] at h
      cases hd2 : checkedDiv (100 * stats.indexedObjects) stats.totalObjects with
      | none =>
        simp only [hd2] at h
        exact Option.noConfusion h
      | some ipct =>
        simp only [hd2] at h
        by_cases hrt : stats.receivedObjects = stats.totalObjects
        · rw [if_pos hrt] at h
          by_cases hn : s.newline = false
          · rw [if_pos hn] at h
            simp only [Option.some.injEq, Prod.mk.injEq] at h
            obtain ⟨hs1, hout⟩ := h
            rw [← hs1]
            refine ⟨rfl, rfl, rfl, ?_⟩
            intro net kb recv totObj idx idxObj co cur2 tot2 pa hmem
            rw [← hout] at hmem
            simp at hmem
          · rw [if_neg hn] at h
            simp only [Option.some.injEq, Prod.mk.injEq] at h
            obtain ⟨hs1, hout⟩ := h
            rw [← hs1]
            refine ⟨rfl, rfl, rfl, ?_⟩
            intro net kb recv totObj idx idxObj co cur2 tot2 pa hmem
            rw [← hout] at hmem
            simp at hmem
        · rw [if_neg hrt] at h
          simp only [Option.some.injEq, Prod.mk.injEq] at h
          obtain ⟨hs1, hout⟩ := h
          rw [← hs1]
          refine ⟨rfl, rfl, rfl, ?_⟩
          intro net kb recv totObj idx idxObj co cur2 tot2 pa hmem
          rw [← hout] at hmem
          simp only [List.mem_singleton, Out.status.injEq] at hmem
          exact ⟨hmem.2.2.2.2.2.2.1, hmem.2.2.2.2.2.2.2.1, hmem.2.2.2.2.2.2.2.2.1⟩

/-- C7: a checkout-progress event stores the current file path and the
completed/total counts in the state, and any phase-one status line it
renders carries checkoutPercent = 100*completed/total when total > 0
and 0 when total = 0, together with those counts. -/
theorem c7_checkout_render (s : State) (p : Option String) (cur tot : Nat)
    (s1 : State) (out : List Out)
    (h : step s (Event.checkout p cur tot) = some (s1, out)) :
    s1.path = p ∧ s1.current = cur ∧ s1.total = tot
    ∧ ∀ net kb recv totObj idx idxObj co cur2 tot2 pa,
        Out.status net kb recv totObj idx idxObj co cur2 tot2 pa ∈ out →
          co = (if tot > 0 then (100 * cur) / tot else 0)
          ∧ cur2 = cur ∧ tot2 = tot :=
  print_fields (s := { s with path := p, current := cur, total := tot }) h

/-- C7 witness: a concrete checkout event (3 of 4 files, path f) during
phase one renders checkout percent 75 and stores the event data. -/
theorem c7_checkout_render_witness :
    ({ progress := some { totalObjects := 10, indexedObjects := 4, receivedObjects := 5,
                          totalDeltas := 2, indexedDeltas := 1, receivedBytes := 2048 },
       total := 4, current := 3, path := some "f", newline := false } : State).path = some "f" :=
  (c7_checkout_render
    { progress := some { totalObjects := 10, indexedObjects := 4, receivedObjects := 5,
                         totalDeltas := 2, indexedDeltas := 1, receivedBytes := 2048 },
      total := 0, current := 0, path := none, newline := false }
    (some "f") 3 4 _ _ rfl).1

/-- C10: rendering requires a previously recorded transfer-progress
event: any event sequence in which a checkout-progress event arrives
before the first transfer-progress event makes print unwrap the absent
progress record, so the run panics at that event having produced no
output. -/
theorem c10_checkout_before_net_panics (evs : List Event) (pre : List Event)
    (p : Option String) (cur tot : Nat) (rest : List Event)
    (hsplit : evs = pre ++ Event.checkout p cur tot :: rest)
    (hpre : ∀ x ∈ pre, isNet x = false) :
    processEvents initState evs = (none, []) := by
  subst hsplit
  cases pre with
  | nil => rfl
  | cons a pre2 =>
    have ha : isNet a = false := hpre a (by simp)
    cases a with
    | net st => simp [isNet] at ha
    | checkout p2 c2 t2 => rfl

/-- C10 witness: a run whose first event is a checkout event panics
with no output. -/
theorem c10_checkout_before_net_panics_witness :
    processEvents initState [Event.checkout none 0 0] = (none, []) :=
  c10_checkout_before_net_panics [Event.checkout none 0 0] [] none 0 0 [] rfl (by simp)

theorem print_shape {s s1 : State} {out : List Out} (h : print s = some (s1, out)) :
    (s1.newline = s.newline ∧ ∃ a, out = [a] ∧ isNl a = false ∧ isDelta a = false)
    ∨ (s.newline = true ∧ s1.newline = true ∧ ∃ i t, out = [Out.delta i t])
    ∨ (s.newline = false ∧ s1.newline = true ∧ ∃ i t, out = [Out.nl, Out.delta i t]) := by
  unfold print at h
  cases hp : s.progress with
  | none =>
    simp only [hp] at h
    exact Option.noConfusion h
  | some stats =>
    simp only [hp] at h
    cases hd1 : checkedDiv (100 * stats.receivedObjects) stats.totalObjects with
    | none =>
      simp only [hd1] at h
      exact Option.noConfusion h
    | some npct =>
      simp only [hd1] at h
      cases hd2 : checkedDiv (100 * stats.indexedObjects) stats.totalObjects with
      | none =>
        simp only [hd2] at h
        exact Option.noConfusion h
      | some ipct =>
        simp only [hd2] at h
        by_cases hrt : stats.receivedObjects = stats.totalObjects
        · rw [if_pos hrt] at h
          by_cases hn : s.newline = false
          · rw [if_pos hn] at h
            simp only [Option.some.injEq, Prod.mk.injEq] at h
            obtain ⟨hs1, hout⟩ := h
            refine Or.inr (Or.inr ⟨hn, ?_, stats.indexedDeltas, stats.totalDeltas, hout.symm⟩)
            rw [← hs1]
          · rw [if_neg hn] at h
            simp only [Option.some.injEq, Prod.mk.injEq] at h
            obtain ⟨hs1, hout⟩ := h
            have hn1 : s.newline = true := by
              cases hnn : s.newline
              · exact absurd hnn hn
              · rfl
            refine Or.inr (Or.inl ⟨hn1, ?_, stats.indexedDeltas, stats.totalDeltas, hout.symm⟩)
            rw [← hs1, hn1]
        · rw [if_neg hrt] at h
          simp only [Option.some.injEq, Prod.mk.injEq] at h
          obtain ⟨hs1, hout⟩ := h
          refine Or.inl ⟨by rw [← hs1], ?_⟩
          exact ⟨_, hout.symm, rfl, rfl⟩

theorem step_shape {s : State} {e : Event} {s1 : State} {out : List Out}
    (h : step s e = some (s1, out)) :
    (s1.newline = s.newline ∧ ∃ a, out = [a] ∧ isNl a = false ∧ isDelta a = false)
    ∨ (s.newline = true ∧ s1.newline = true ∧ ∃ i t, out = [Out.delta i t])
    ∨ (s.newline = false ∧ s1.newline = true ∧ ∃ i t, out = [Out.nl, Out.delta i t]) := by
  cases e with
  | net stats => exact print_shape (s := { s with progress := some stats }) h
  | checkout p c t => exact print_shape (s := { s with path := p, current := c, total := t }) h

theorem rendersOk_nlCount : ∀ (outs : List Out) (b : Bool), rendersOk b outs →
    nlCount outs ≤ cond b 0 1 := by
  intro outs
  induction outs with
  | nil =>
    intro b h
    simp [nlCount]
  | cons a rest ih =>
    intro b h
    obtain ⟨h1, h2, h3⟩ := h
    cases ha : isNl a with
    | false =>
      rw [ha, Bool.or_false] at h3
      have h4 := ih b h3
      have hc : nlCount (a :: rest) = nlCount rest := by
        simp [nlCount, List.filter_cons, ha]
      rw [hc]
      exact h4
    | true =>
      have hb : b = false := h2 ha
      rw [ha, hb, Bool.false_or] at h3
      have h4 := ih true h3
      have h5 : nlCount rest = 0 := Nat.le_zero.mp (by simpa using h4)
      have hc : nlCount (a :: rest) = nlCount rest + 1 := by
        simp [nlCount, List.filter_cons, ha]
      rw [hb, hc, h5]
      simp

theorem rendersOk_delta_mem : ∀ (pre : List Out) (b : Bool) (i t : Nat) (suf : List Out),
    rendersOk b (pre ++ Out.delta i t :: suf) → b = true ∨ Out.nl ∈ pre := by
  intro pre
  induction pre with
  | nil =>
    intro b i t suf h
    exact Or.inl (h.1 rfl)
  | cons a pre2 ih =>
    intro b i t suf h
    obtain ⟨-, -, h3⟩ := h
    rcases ih _ i t suf h3 with hb | hmem
    · cases ha : isNl a
      · rw [ha, Bool.or_false] at hb
        exact Or.inl hb
      · have hanl : a = Out.nl := by
          cases a
          · rfl
          · exact absurd ha (by simp [isNl])
          · exact absurd ha (by simp [isNl])
        exact Or.inr (by rw [hanl]; exact List.mem_cons_self _ _)
    · exact Or.inr (List.mem_cons_of_mem _ hmem)

theorem processEvents_ok : ∀ (evs : List Event) (s : State),
    rendersOk s.newline (processEvents s evs).2
    ∧ (∀ s2, (processEvents s evs).1 = some s2 →
        cond s.newline 1 0 + nlCount (processEvents s evs).2 = cond s2.newline 1 0) := by
  intro evs
  induction evs with
  | nil =>
    intro s
    refine ⟨trivial, ?_⟩
    intro s2 h
    simp only [processEvents, Option.some.injEq] at h
    subst h
    simp [processEvents, nlCount]
  | cons e es ih =>
    intro s
    cases hstep : step s e with
    | none =>
      refine ⟨?_, ?_⟩
      · simp only [processEvents, hstep]
        exact trivial
      · intro s2 h
        simp only [processEvents, hstep] at h
        exact Option.noConfusion h
    | some pr =>
      obtain ⟨s1, out⟩ := pr
      have heq : processEvents s (e :: es)
          = ((processEvents s1 es).1, out ++ (processEvents s1 es).2) := by
        simp only [processEvents, hstep]
      obtain ⟨ih1, ih2⟩ := ih s1
      rcases step_shape hstep with ⟨hnl, a, hout, hano, hand⟩
        | ⟨hb, hb1, i, t, hout⟩ | ⟨hb, hb1, i, t, hout⟩
      · subst hout
        refine ⟨?_, ?_⟩
        · rw [heq]
          refine ⟨fun hd => absurd hd (by rw [hand]; exact Bool.noConfusion),
                  fun hn => absurd hn (by rw [hano]; exact Bool.noConfusion), ?_⟩
          rw [hano, Bool.or_false, ← hnl]
          exact ih1
        · intro s2 h
          rw [heq] at h ⊢
          have h5 := ih2 s2 h
          show cond s.newline 1 0 + nlCount ([a] ++ (processEvents s1 es).2)
              = cond s2.newline 1 0
          have hc : nlCount ([a] ++ (processEvents s1 es).2)
              = nlCount (processEvents s1 es).2 := by
            simp [nlCount, List.filter_cons, hano]
          rw [hc, ← hnl]
          exact h5
      · subst hout
        refine ⟨?_, ?_⟩
        · rw [heq]
          refine ⟨fun _ => hb, fun hn => absurd hn (by simp [isNl]), ?_⟩
          rw [hb]
          simp only [Bool.true_or]
          rw [← hb1]
          exact ih1
        · intro s2 h
          rw [heq] at h ⊢
          have h5 := ih2 s2 h
          show cond s.newline 1 0 + nlCount ([Out.delta i t] ++ (processEvents s1 es).2)
              = cond s2.newline 1 0
          have hc : nlCount ([Out.delta i t] ++ (processEvents s1 es).2)
              = nlCount (processEvents s1 es).2 := by
            simp [nlCount, List.filter_cons, isNl]
          rw [hc, hb, ← hb1]
          exact h5
      · subst hout
        refine ⟨?_, ?_⟩
        · rw [heq]
          refine ⟨fun hd => absurd hd (by simp [isDelta]), fun _ => hb, ?_⟩
          simp only [isNl, Bool.or_true]
          refine ⟨fun _ => rfl, fun hn => absurd hn (by simp [isNl]), ?_⟩
          simp only [isNl, Bool.true_or]
          rw [← hb1]
          exact ih1
        · intro s2 h
          rw [heq] at h ⊢
          have h5 := ih2 s2 h
          rw [hb1] at h5
          show cond s.newline 1 0 + nlCount ([Out.nl, Out.delta i t] ++ (processEvents s1 es).2)
              = cond s2.newline 1 0
          have hc : nlCount ([Out.nl, Out.delta i t] ++ (processEvents s1 es).2)
              = nlCount (processEvents s1 es).2 + 1 := by
            simp [nlCount, List.filter_cons, isNl]
          rw [hc, hb]
          simp only [Bool.cond_false, Bool.cond_true] at h5 ⊢
          omega

/-- C3 counterexample: the first observation of
objectsReceived == objectsTotal can emit no newline at all: with a
first transfer event whose total is 0 (so received equals total), the
render faults before printing anything, so the claim that the newline
is emitted exactly once at the first observation of
objectsReceived == objectsTotal is false. -/
theorem c3_counterexample :
    (GitProgress.mk 0 0 0 0 0 0).receivedObjects = (GitProgress.mk 0 0 0 0 0 0).totalObjects
    ∧ processEvents initState [Event.net (GitProgress.mk 0 0 0 0 0 0)] = (none, [])
    ∧ nlCount (processEvents initState [Event.net (GitProgress.mk 0 0 0 0 0 0)]).2 = 0 :=
  ⟨rfl, rfl, rfl⟩

/-- C3 (amended): over every event sequence of one run, the
delta-resolution line is never printed before the phase-transition
newline, the newline is emitted at most once, and in a run with no
panic the number of newlines emitted equals the final newline flag —
exactly one once a completed render (received = total) has happened,
zero otherwise. (A completion observed by a render with total 0
panics before emitting anything; see the counterexample.) -/
theorem c3_two_phase (evs : List Event) (r : Option State) (outs : List Out)
    (h : processEvents initState evs = (r, outs)) :
    nlCount outs ≤ 1
    ∧ (∀ pre i t suf, outs = pre ++ Out.delta i t :: suf → Out.nl ∈ pre)
    ∧ (∀ s2, r = some s2 → nlCount outs = cond s2.newline 1 0) := by
  obtain ⟨h1, h2⟩ := processEvents_ok evs initState
  rw [h] at h1 h2
  refine ⟨?_, ?_, ?_⟩
  · simpa using rendersOk_nlCount outs false h1
  · intro pre i t suf hsplit
    rcases rendersOk_delta_mem pre false i t suf (by rw [← hsplit]; exact h1) with hf | hm
    · exact Bool.noConfusion hf
    · exact hm
  · intro s2 hr
    have h5 := h2 s2 hr
    have h6 : (cond initState.newline 1 0 : Nat) = 0 := rfl
    rw [h6, Nat.zero_add] at h5
    exact h5

/-- C3 witness: a single completing transfer event emits at most one
newline. -/
theorem c3_two_phase_witness :
    nlCount (processEvents initState [Event.net (GitProgress.mk 5 5 5 2 1 0)]).2 ≤ 1 :=
  (c3_two_phase [Event.net (GitProgress.mk 5 5 5 2 1 0)] _ _ rfl).1

end Contemplate
